import Mathlib

/-!
Shallow embedding of the donation-dashboard data pipeline
(src/load_data.ts: `processEntries` and `loadData`).

JavaScript numbers are modelled by `JSNum`: either NaN or an exact
rational.  Floating-point rounding is not modelled — every claim below is
about structural equalities (running-total recurrences, the projection
formula, NaN propagation), which the code computes by exactly the syntactic
operations embedded here.  NaN propagates through arithmetic and makes
every comparison false, as in JavaScript.
-/

namespace Donations

/-- Rational addition written with an explicit mkRat normalisation so that
it evaluates inside the kernel; proved equal to Mathlib's addition below
(ratAdd_eq). -/
def ratAdd (a b : ℚ) : ℚ :=
  mkRat (a.num * (b.den : ℤ) + b.num * (a.den : ℤ)) (a.den * b.den)

/-- Rational subtraction via mkRat; proved equal to Mathlib's (ratSub_eq). -/
def ratSub (a b : ℚ) : ℚ :=
  mkRat (a.num * (b.den : ℤ) - b.num * (a.den : ℤ)) (a.den * b.den)

/-- Rational multiplication via mkRat; proved equal to Mathlib's
(ratMul_eq). -/
def ratMul (a b : ℚ) : ℚ :=
  mkRat (a.num * b.num) (a.den * b.den)

/-- Rational division via mkRat, for a nonzero divisor; proved equal to
Mathlib's (ratDiv_eq). -/
def ratDiv (a b : ℚ) : ℚ :=
  if b.num < 0 then mkRat (-(a.num * (b.den : ℤ))) (a.den * b.num.natAbs)
  else mkRat (a.num * (b.den : ℤ)) (a.den * b.num.natAbs)

/-- Rational negation via mkRat; proved equal to Mathlib's (ratNeg_eq). -/
def ratNeg (a : ℚ) : ℚ := mkRat (-a.num) a.den

/-- The rational value of a natural number, in kernel-evaluable form. -/
def ratOfNat (n : ℕ) : ℚ := mkRat (Int.ofNat n) 1

/-- The rational value of an integer, in kernel-evaluable form. -/
def ratOfInt (i : ℤ) : ℚ := mkRat i 1

/-- A JavaScript number: NaN or an exact rational value.  Infinities are not
modelled; no operation in the embedded code can produce one (the only
division is by a window length that is guarded to be positive). -/
inductive JSNum where
  | nan : JSNum
  | num : ℚ → JSNum
deriving DecidableEq, Repr

namespace JSNum

/-- JavaScript addition: NaN propagates. -/
def add : JSNum → JSNum → JSNum
  | num a, num b => num (ratAdd a b)
  | _, _ => nan

/-- JavaScript subtraction: NaN propagates. -/
def sub : JSNum → JSNum → JSNum
  | num a, num b => num (ratSub a b)
  | _, _ => nan

/-- JavaScript multiplication: NaN propagates. -/
def mul : JSNum → JSNum → JSNum
  | num a, num b => num (ratMul a b)
  | _, _ => nan

/-- JavaScript division: NaN propagates.  Division by zero is mapped to NaN;
in JavaScript x/0 is an infinity (or NaN for 0/0), but the embedded code
only ever divides by a window length guarded to be positive, so this case
is unreachable in every theorem below. -/
def div : JSNum → JSNum → JSNum
  | num a, num b => if b = 0 then nan else num (ratDiv a b)
  | _, _ => nan

/-- The JavaScript comparison a > b: false whenever either side is NaN. -/
def gt : JSNum → JSNum → Bool
  | num a, num b => decide (b < a)
  | _, _ => false

instance : Add JSNum := ⟨add⟩
instance : Sub JSNum := ⟨sub⟩
instance : Mul JSNum := ⟨mul⟩
instance : Inhabited JSNum := ⟨nan⟩

end JSNum

/-- The `ProcessedEntry` record of src/load_data.ts.  `index` is the
chronological period index `(year - 2000) * 12 + month`; it is kept as a
mathematical integer (the claims only concern rows whose month field
parses, where the JavaScript value is an exact integer).  The optional
`sumProjectedDonations` field is `none` when absent/undefined. -/
structure ProcessedEntry where
  index : ℤ
  year : ℤ
  donated : JSNum
  pledged : JSNum
  received : JSNum
  needed : JSNum
  hasDonation : Bool
  sumDonated : JSNum
  sumNeeded : JSNum
  sumProjectedDonations : Option JSNum
deriving DecidableEq, Repr

instance : Inhabited ProcessedEntry :=
  ⟨⟨0, 0, .nan, .nan, .nan, .nan, false, .nan, .nan, none⟩⟩

/-- The fresh copy made by `processEntries`' initial map:
`{ ...e, sumDonated: 0, sumNeeded: 0, sumProjectedDonations: undefined }`. -/
def resetEntry (e : ProcessedEntry) : ProcessedEntry :=
  { e with sumDonated := .num 0, sumNeeded := .num 0, sumProjectedDonations := none }

/-- The cumulative-sum pass of `processEntries` (lines 26-32):
`entry.sumDonated = sumDonated += entry.donated` and likewise for
`sumNeeded`, threading the two accumulators left to right. -/
def cumSums : JSNum → JSNum → List ProcessedEntry → List ProcessedEntry
  | _, _, [] => []
  | sd, sn, e :: rest =>
      let sd' := sd + e.donated
      let sn' := sn + e.needed
      { e with sumDonated := sd', sumNeeded := sn' } :: cumSums sd' sn' rest

/-- The projection window of `processEntries` (line 35):
`result.filter((e) => e.hasDonation).slice(-3)`.  JavaScript `slice(-3)`
takes the last three elements, or all of them when fewer than three exist,
which is `drop (length - 3)` with truncated subtraction. -/
def donationWindow (result : List ProcessedEntry) : List ProcessedEntry :=
  let withDonation := result.filter (fun e => e.hasDonation)
  withDonation.drop (withDonation.length - 3)

/-- A JavaScript `reduce((acc, e) => acc + f(e), 0)`: a left fold from 0. -/
def sumBy (f : ProcessedEntry → JSNum) (l : List ProcessedEntry) : JSNum :=
  l.foldl (fun acc e => acc + f e) (.num 0)

/-- A window average `w.reduce((acc, e) => acc + f(e), 0) / w.length`, as
used for `avgDonated`, `avgSumDonated` and `avgIndex` in lines 37-42. -/
def windowAvg (f : ProcessedEntry → JSNum) (w : List ProcessedEntry) : JSNum :=
  (sumBy f w).div (.num (ratOfNat w.length))

/-- The projected cumulative value for a period index (line 47):
`avgSumDonated + avgDonated * (entry.index - avgIndex)`, with all three
averages taken over the window `w`. -/
def projectedValue (w : List ProcessedEntry) (index : ℤ) : JSNum :=
  windowAvg (fun e => e.sumDonated) w +
    windowAvg (fun e => e.donated) w *
      (JSNum.num (ratOfInt index) - windowAvg (fun e => .num (ratOfInt e.index)) w)

/-- The projection pass of `processEntries` (lines 34-50).  The empty-window
case (`if (lastThreeMonths.length > 0)`) is the first match arm: the input
is returned unchanged.  Otherwise `projectionStart` is the window's first
index and every entry with `index >= projectionStart` gets
`sumProjectedDonations = avgSumDonated + avgDonated * (index - avgIndex)`. -/
def projectEntries (result : List ProcessedEntry) : List ProcessedEntry :=
  match donationWindow result with
  | [] => result
  | w0 :: ws =>
      result.map fun entry =>
        if w0.index ≤ entry.index then
          { entry with sumProjectedDonations := some (projectedValue (w0 :: ws) entry.index) }
        else entry

/-- The whole of `processEntries` (src/load_data.ts lines 18-53): fresh
copies, cumulative sums, then the guarded trend projection. -/
def processEntries (entries : List ProcessedEntry) : List ProcessedEntry :=
  projectEntries (cumSums (.num 0) (.num 0) (entries.map resetEntry))

/-- The period index at which projections begin (line 44 of the source:
`lastThreeMonths[0].index`): the index of the first entry of the donation
window that `processEntries` computes, `none` when the window is empty. -/
def projectionStart (entries : List ProcessedEntry) : Option ℤ :=
  ((donationWindow (cumSums (.num 0) (.num 0) (entries.map resetEntry))).head?).map
    (fun e => e.index)

/-- Forgetting the optional projection field; used below to state that the
projection pass changes no other field. -/
def eraseProj (e : ProcessedEntry) : ProcessedEntry :=
  { e with sumProjectedDonations := none }

/-- The chronological sort of `loadData` (line 89):
`entries.sort((a, b) => a.index - b.index)`, a stable ascending sort on
`index`.  JavaScript `Array.prototype.sort` is stable, and a stable sort
under a total preorder has a unique result, so insertion sort is
extensionally the engine's sort. -/
def sortEntries (entries : List ProcessedEntry) : List ProcessedEntry :=
  List.insertionSort (fun a b => a.index ≤ b.index) entries

instance : IsTotal ProcessedEntry (fun a b => a.index ≤ b.index) :=
  ⟨fun a b => Int.le_total a.index b.index⟩

instance : IsTrans ProcessedEntry (fun a b => a.index ≤ b.index) :=
  ⟨fun _ _ _ hab hbc => Int.le_trans hab hbc⟩

/-- A raw TSV row as d3.tsv delivers it to `loadData`'s map: each field is a
string when the column is present in the file and absent (undefined)
otherwise.  The month field is kept mandatory — every claim concerns rows
with a month column. -/
structure RawRow where
  month : String
  donors : Option String
  received : Option String
  pledged : Option String
  needed : Option String
deriving DecidableEq, Repr

/-- Numeric value of a decimal digit character. -/
def digitValue (c : Char) : ℕ := c.toNat - 48

/-- Scan a maximal run of decimal digits, accumulating their value and
count and returning the unconsumed remainder, as the JavaScript numeric
parsers do. -/
def scanDigits : ℕ → ℕ → List Char → ℕ × ℕ × List Char
  | acc, cnt, [] => (acc, cnt, [])
  | acc, cnt, c :: cs =>
      if c.isDigit then scanDigits (acc * 10 + digitValue c) (cnt + 1) cs
      else (acc, cnt, c :: cs)

/-- Drop the leading whitespace that JavaScript numeric parsing skips. -/
def dropSpaces (cs : List Char) : List Char := cs.dropWhile (fun c => c.isWhitespace)

/-- Consume an optional leading sign; the Bool is true for a minus sign. -/
def scanSign (cs : List Char) : Bool × List Char :=
  match cs with
  | [] => (false, [])
  | c :: rest =>
      if c = '-' then (true, rest)
      else if c = '+' then (false, rest)
      else (false, c :: rest)

/-- JavaScript `parseFloat` on a character list: optional whitespace and
sign, then a decimal literal prefix `digits[.digits]`; NaN when no digit is
found.  Exponent suffixes are not modelled (no claim uses them). -/
def parseFloatChars (cs : List Char) : JSNum :=
  let cs1 := dropSpaces cs
  let p := scanSign cs1
  let q := scanDigits 0 0 p.2
  let ip := q.1
  let icnt := q.2.1
  let signed : ℚ → JSNum := fun v => .num (if p.1 then ratNeg v else v)
  match q.2.2 with
  | c :: cs4 =>
      if c = '.' then
        let r := scanDigits 0 0 cs4
        if icnt = 0 && r.2.1 = 0 then .nan
        else signed (ratAdd (ratOfNat ip) (ratDiv (ratOfNat r.1) (ratOfNat (10 ^ r.2.1))))
      else if icnt = 0 then .nan else signed (ratOfNat ip)
  | [] => if icnt = 0 then .nan else signed (ratOfNat ip)

/-- JavaScript `parseFloat` applied to a possibly-absent field:
`parseFloat(undefined)` stringifies to "undefined" and yields NaN. -/
def jsParseFloat (field : Option String) : JSNum :=
  match field with
  | none => .nan
  | some s => parseFloatChars s.toList

/-- JavaScript `parseInt(s, 10)`, as an `Option ℤ` with `none` for NaN:
optional whitespace and sign, then a maximal run of decimal digits. -/
def parseIntChars (cs : List Char) : Option ℤ :=
  let cs1 := dropSpaces cs
  let p := scanSign cs1
  let q := scanDigits 0 0 p.2
  if q.2.1 = 0 then none
  else some (if p.1 then -(q.1 : ℤ) else (q.1 : ℤ))

/-- JavaScript `String.prototype.split` with a single-character separator,
on character lists: splits into the (possibly empty) pieces between
occurrences of the separator. -/
def splitOnChar (sep : Char) : List Char → List (List Char)
  | [] => [[]]
  | c :: cs =>
      if c = sep then [] :: splitOnChar sep cs
      else
        match splitOnChar sep cs with
        | [] => [[c]]
        | piece :: pieces => (c :: piece) :: pieces

/-- The month parsing of `loadData` (lines 66-68): split on "-" and
`parseInt` the first two pieces.  `none` models the case where either piece
is NaN (the resulting entry would carry a NaN index; no claim concerns such
rows). -/
def parseMonth (month : String) : Option (ℤ × ℤ) :=
  match (splitOnChar '-' month.toList).map parseIntChars with
  | some y :: some m :: _ => some (y, m)
  | _ => none

/-- The row mapping of `loadData` (lines 65-87): parse the month into the
period index `(year - 2000) * 12 + month`, `parseFloat` the three money
fields, set `donated = pledged + received` and
`hasDonation = received > 0 || pledged > 0`.  Rows whose month fails to
parse are reported as `none` (see `parseMonth`). -/
def parseRow (row : RawRow) : Option ProcessedEntry :=
  match parseMonth row.month with
  | none => none
  | some (year, month) =>
      let needed := jsParseFloat row.needed
      let pledged := jsParseFloat row.pledged
      let received := jsParseFloat row.received
      let donated := pledged + received
      some
        { index := (year - 2000) * 12 + month
          year := year
          donated := donated
          needed := needed
          pledged := pledged
          received := received
          hasDonation := received.gt (.num 0) || pledged.gt (.num 0)
          sumDonated := .num 0
          sumNeeded := .num 0
          sumProjectedDonations := none }

/-- The `loadData` pipeline on already-fetched rows (lines 65-91): parse
every row, then sort chronologically.  Restricted to rows whose month
parses; rows with an unparseable month would get a NaN period index in
JavaScript, and no claim concerns them. -/
def loadData (rows : List RawRow) : List ProcessedEntry :=
  sortEntries (rows.filterMap parseRow)

/-! Concrete data for instantiating the theorems below.  The three rows are
the worked scenario of the repository's test file
(src/load_data.test.ts): 2025-01 through 2025-03 with needed 1000 each. -/

def rowJan : RawRow :=
  { month := "2025-01", donors := some "5", received := some "600",
    pledged := some "200", needed := some "1000" }

def rowNoPledged : RawRow :=
  { month := "2025-01", donors := some "5", received := some "600",
    pledged := none, needed := some "1000" }

def rowAlt : RawRow :=
  { month := "2031-12", donors := some "99", received := some "600",
    pledged := some "200", needed := some "777" }

def rowZero : RawRow :=
  { month := "2025-04", donors := some "0", received := some "0",
    pledged := some "0", needed := some "1000" }

def rowBadReceived : RawRow :=
  { month := "2025-04", donors := some "2", received := some "abc",
    pledged := some "50", needed := some "1000" }

def entryJan : ProcessedEntry :=
  { index := 301, year := 2025, donated := .num 800, pledged := .num 200,
    received := .num 600, needed := .num 1000, hasDonation := true,
    sumDonated := .num 0, sumNeeded := .num 0, sumProjectedDonations := none }

def entryFeb : ProcessedEntry :=
  { index := 302, year := 2025, donated := .num 800, pledged := .num 0,
    received := .num 800, needed := .num 1000, hasDonation := true,
    sumDonated := .num 0, sumNeeded := .num 0, sumProjectedDonations := none }

def entryMar : ProcessedEntry :=
  { index := 303, year := 2025, donated := .num 1000, pledged := .num 100,
    received := .num 900, needed := .num 1000, hasDonation := true,
    sumDonated := .num 0, sumNeeded := .num 0, sumProjectedDonations := none }

def entryZero : ProcessedEntry :=
  { index := 304, year := 2025, donated := .num 0, pledged := .num 0,
    received := .num 0, needed := .num 1000, hasDonation := false,
    sumDonated := .num 0, sumNeeded := .num 0, sumProjectedDonations := none }

def entryNoPledged : ProcessedEntry :=
  { index := 301, year := 2025, donated := .nan, pledged := .nan,
    received := .num 600, needed := .num 1000, hasDonation := true,
    sumDonated := .num 0, sumNeeded := .num 0, sumProjectedDonations := none }

def entryAlt : ProcessedEntry :=
  { index := 384, year := 2031, donated := .num 800, pledged := .num 200,
    received := .num 600, needed := .num 777, hasDonation := true,
    sumDonated := .num 0, sumNeeded := .num 0, sumProjectedDonations := none }

def entryBad : ProcessedEntry :=
  { index := 304, year := 2025, donated := .nan, pledged := .num 50,
    received := .nan, needed := .num 1000, hasDonation := true,
    sumDonated := .num 0, sumNeeded := .num 0, sumProjectedDonations := none }

/-! Structural lemmas about the embedded pipeline.  The mkRat-based
arithmetic is first proved equal to Mathlib's rational arithmetic. -/

theorem ratAdd_eq (a b : ℚ) : ratAdd a b = a + b := by
  rw [ratAdd, Rat.mkRat_eq_div]
  have ha : ((a.den : ℚ)) ≠ 0 := Nat.cast_ne_zero.mpr a.den_nz
  have hb : ((b.den : ℚ)) ≠ 0 := Nat.cast_ne_zero.mpr b.den_nz
  conv_rhs => rw [← Rat.num_div_den a, ← Rat.num_div_den b]
  rw [div_add_div _ _ ha hb]
  push_cast
  ring_nf

theorem ratSub_eq (a b : ℚ) : ratSub a b = a - b := by
  rw [ratSub, Rat.mkRat_eq_div]
  have ha : ((a.den : ℚ)) ≠ 0 := Nat.cast_ne_zero.mpr a.den_nz
  have hb : ((b.den : ℚ)) ≠ 0 := Nat.cast_ne_zero.mpr b.den_nz
  conv_rhs => rw [← Rat.num_div_den a, ← Rat.num_div_den b]
  rw [div_sub_div _ _ ha hb]
  push_cast
  ring_nf

theorem ratMul_eq (a b : ℚ) : ratMul a b = a * b := by
  rw [ratMul, Rat.mkRat_eq_div]
  conv_rhs => rw [← Rat.num_div_den a, ← Rat.num_div_den b]
  rw [div_mul_div_comm]
  push_cast
  ring_nf

theorem ratNeg_eq (a : ℚ) : ratNeg a = -a := by
  rw [ratNeg, Rat.mkRat_eq_div]
  conv_rhs => rw [← Rat.num_div_den a]
  push_cast
  ring_nf

theorem ratOfNat_eq (n : ℕ) : ratOfNat n = (n : ℚ) := by
  rw [ratOfNat, Rat.mkRat_one]
  simp

theorem ratOfInt_eq (i : ℤ) : ratOfInt i = (i : ℚ) := by
  rw [ratOfInt, Rat.mkRat_one]

theorem ratDiv_eq (a b : ℚ) (hb : b ≠ 0) : ratDiv a b = a / b := by
  have hbn : b.num ≠ 0 := Rat.num_ne_zero.mpr hb
  have ha : ((a.den : ℚ)) ≠ 0 := Nat.cast_ne_zero.mpr a.den_nz
  have hbd : ((b.den : ℚ)) ≠ 0 := Nat.cast_ne_zero.mpr b.den_nz
  have hna : b.num.natAbs ≠ 0 := Int.natAbs_ne_zero.mpr hbn
  have hY : (((a.den * b.num.natAbs : ℕ)) : ℚ) ≠ 0 :=
    Nat.cast_ne_zero.mpr (Nat.mul_ne_zero a.den_nz hna)
  have hA : a * ((a.den : ℚ)) = ((a.num : ℚ)) := by field_simp
  have hB : b * ((b.den : ℚ)) = ((b.num : ℚ)) := by field_simp
  rw [ratDiv]
  by_cases hneg : b.num < 0
  · rw [if_pos hneg, Rat.mkRat_eq_div, div_eq_div_iff hY hb]
    push_cast [Int.cast_natAbs]
    rw [abs_of_neg (show ((b.num : ℚ)) < 0 by exact_mod_cast hneg)]
    calc -(((a.num : ℚ)) * ((b.den : ℚ))) * b
        = -(((a.num : ℚ)) * (b * ((b.den : ℚ)))) := by ring
      _ = -(((a.num : ℚ)) * ((b.num : ℚ))) := by rw [hB]
      _ = (a * ((a.den : ℚ))) * -((b.num : ℚ)) := by rw [hA]; ring
      _ = a * (((a.den : ℚ)) * -((b.num : ℚ))) := by ring
  · rw [if_neg hneg, Rat.mkRat_eq_div, div_eq_div_iff hY hb]
    push_cast [Int.cast_natAbs]
    rw [abs_of_nonneg (show (0 : ℚ) ≤ ((b.num : ℚ)) by exact_mod_cast Int.not_lt.mp hneg)]
    calc ((a.num : ℚ)) * ((b.den : ℚ)) * b
        = ((a.num : ℚ)) * (b * ((b.den : ℚ))) := by ring
      _ = ((a.num : ℚ)) * ((b.num : ℚ)) := by rw [hB]
      _ = (a * ((a.den : ℚ))) * ((b.num : ℚ)) := by rw [hA]
      _ = a * (((a.den : ℚ)) * ((b.num : ℚ))) := by ring

theorem JSNum.add_def (a b : ℚ) : JSNum.num a + JSNum.num b = JSNum.num (a + b) := by
  show JSNum.num (ratAdd a b) = JSNum.num (a + b)
  rw [ratAdd_eq]

theorem JSNum.nan_add (b : JSNum) : JSNum.nan + b = JSNum.nan := rfl

theorem JSNum.add_nan : ∀ (a : JSNum), a + JSNum.nan = JSNum.nan
  | .nan => rfl
  | .num _ => rfl

/-- JavaScript number addition is commutative (exactly, in this model;
IEEE-754 addition is also commutative). -/
theorem JSNum.add_comm : ∀ (a b : JSNum), a + b = b + a
  | .nan, .nan => rfl
  | .nan, .num _ => rfl
  | .num _, .nan => rfl
  | .num a, .num b => congrArg JSNum.num (by rw [ratAdd_eq, ratAdd_eq, Rat.add_comm])

theorem JSNum.zero_add : ∀ (a : JSNum), JSNum.num 0 + a = a
  | .nan => rfl
  | .num a => congrArg JSNum.num (by rw [ratAdd_eq, Rat.zero_add])

theorem resetEntry_resetEntry (e : ProcessedEntry) :
    resetEntry (resetEntry e) = resetEntry e := rfl

/-- Equal images under a map have equal images elementwise. -/
theorem map_getElem_eq {α β : Type} (f : α → β) {A B : List α} (hAB : A.map f = B.map f)
    (i : ℕ) (hA : i < A.length) (hB : i < B.length) : f A[i] = f B[i] := by
  have hA2 : i < (A.map f).length := by simpa using hA
  have hB2 : i < (B.map f).length := by simpa using hB
  calc f A[i] = (A.map f)[i] := (List.getElem_map f).symm
    _ = (B.map f)[i] := by simp only [hAB]
    _ = f B[i] := List.getElem_map f

theorem cumSums_length (sd sn : JSNum) (l : List ProcessedEntry) :
    (cumSums sd sn l).length = l.length := by
  induction l generalizing sd sn with
  | nil => rfl
  | cons e rest ih => simp [cumSums, ih]

/-- The cumulative-sum pass only rewrites the two running-total fields. -/
theorem cumSums_map_resetEntry (sd sn : JSNum) (l : List ProcessedEntry) :
    (cumSums sd sn l).map resetEntry = l.map resetEntry := by
  induction l generalizing sd sn with
  | nil => rfl
  | cons e rest ih =>
      simp only [cumSums, List.map_cons, ih]
      rfl

/-- The cumulative-sum pass leaves the projection field alone. -/
theorem cumSums_proj (sd sn : JSNum) (l : List ProcessedEntry) (i : ℕ)
    (h : i < l.length) (h2 : i < (cumSums sd sn l).length) :
    (cumSums sd sn l)[i].sumProjectedDonations = l[i].sumProjectedDonations := by
  induction l generalizing sd sn i with
  | nil => simp at h
  | cons e rest ih =>
      cases i with
      | zero => rfl
      | succ j =>
          have hj : j < rest.length := by simpa using h
          have hj2 : j < (cumSums (sd + e.donated) (sn + e.needed) rest).length := by
            simpa [cumSums_length] using hj
          simpa [cumSums] using ih (sd + e.donated) (sn + e.needed) j hj hj2

theorem cumSums_zero_sumDonated (sd sn : JSNum) (l : List ProcessedEntry)
    (h : 0 < (cumSums sd sn l).length) :
    (cumSums sd sn l)[0].sumDonated = sd + (cumSums sd sn l)[0].donated := by
  cases l with
  | nil => simp [cumSums] at h
  | cons e rest => rfl

theorem cumSums_zero_sumNeeded (sd sn : JSNum) (l : List ProcessedEntry)
    (h : 0 < (cumSums sd sn l).length) :
    (cumSums sd sn l)[0].sumNeeded = sn + (cumSums sd sn l)[0].needed := by
  cases l with
  | nil => simp [cumSums] at h
  | cons e rest => rfl

theorem cumSums_succ_sumDonated (sd sn : JSNum) (l : List ProcessedEntry) (i : ℕ)
    (h : i + 1 < (cumSums sd sn l).length) :
    (cumSums sd sn l)[i + 1].sumDonated =
      (cumSums sd sn l)[i].sumDonated + (cumSums sd sn l)[i + 1].donated := by
  induction l generalizing sd sn i with
  | nil => simp [cumSums] at h
  | cons e rest ih =>
      cases i with
      | zero =>
          have h0 : 0 < (cumSums (sd + e.donated) (sn + e.needed) rest).length := by
            simp only [cumSums, List.length_cons] at h
            omega
          simpa [cumSums] using cumSums_zero_sumDonated (sd + e.donated) (sn + e.needed) rest h0
      | succ j =>
          have hj : j + 1 < (cumSums (sd + e.donated) (sn + e.needed) rest).length := by
            simp only [cumSums, List.length_cons] at h
            omega
          simpa [cumSums] using ih (sd + e.donated) (sn + e.needed) j hj

theorem cumSums_succ_sumNeeded (sd sn : JSNum) (l : List ProcessedEntry) (i : ℕ)
    (h : i + 1 < (cumSums sd sn l).length) :
    (cumSums sd sn l)[i + 1].sumNeeded =
      (cumSums sd sn l)[i].sumNeeded + (cumSums sd sn l)[i + 1].needed := by
  induction l generalizing sd sn i with
  | nil => simp [cumSums] at h
  | cons e rest ih =>
      cases i with
      | zero =>
          have h0 : 0 < (cumSums (sd + e.donated) (sn + e.needed) rest).length := by
            simp only [cumSums, List.length_cons] at h
            omega
          simpa [cumSums] using cumSums_zero_sumNeeded (sd + e.donated) (sn + e.needed) rest h0
      | succ j =>
          have hj : j + 1 < (cumSums (sd + e.donated) (sn + e.needed) rest).length := by
            simp only [cumSums, List.length_cons] at h
            omega
          simpa [cumSums] using ih (sd + e.donated) (sn + e.needed) j hj

theorem projectEntries_length (l : List ProcessedEntry) :
    (projectEntries l).length = l.length := by
  unfold projectEntries
  split <;> simp

/-- The projection pass only writes the optional projection field. -/
theorem projectEntries_map_eraseProj (l : List ProcessedEntry) :
    (projectEntries l).map eraseProj = l.map eraseProj := by
  unfold projectEntries
  split
  · rfl
  · rw [List.map_map]
    refine List.map_congr_left (fun e he => ?eq)
    simp only [Function.comp_apply]
    split <;> rfl

/-- When the window is the nonempty list w0 :: ws, the projection pass is
the conditional update map of lines 45-49. -/
theorem projectEntries_eq_map (l : List ProcessedEntry) (w0 : ProcessedEntry)
    (ws : List ProcessedEntry) (hw : donationWindow l = w0 :: ws) :
    projectEntries l =
      l.map fun entry =>
        if w0.index ≤ entry.index then
          { entry with sumProjectedDonations := some (projectedValue (w0 :: ws) entry.index) }
        else entry := by
  unfold projectEntries
  simp only [hw]

/-- Elementwise description of the projection pass when the window is the
nonempty list w0 :: ws. -/
theorem projectEntries_getElem (l : List ProcessedEntry) (w0 : ProcessedEntry)
    (ws : List ProcessedEntry) (hw : donationWindow l = w0 :: ws) (i : ℕ)
    (h1 : i < l.length) (h2 : i < (projectEntries l).length) :
    (projectEntries l)[i] =
      if w0.index ≤ l[i].index then
        { l[i] with sumProjectedDonations := some (projectedValue (w0 :: ws) l[i].index) }
      else l[i] := by
  simp only [projectEntries_eq_map l w0 ws hw, List.getElem_map]

/-- When the window is empty the projection pass is the identity
(the guard of line 36). -/
theorem projectEntries_nilWindow (l : List ProcessedEntry) (hw : donationWindow l = []) :
    projectEntries l = l := by
  unfold projectEntries
  simp only [hw]

theorem processEntries_length (l : List ProcessedEntry) :
    (processEntries l).length = l.length := by
  unfold processEntries
  rw [projectEntries_length, cumSums_length, List.length_map]

theorem map_resetEntry_map_resetEntry (l : List ProcessedEntry) :
    (l.map resetEntry).map resetEntry = l.map resetEntry := by
  rw [List.map_map]
  exact List.map_congr_left (fun e _ => resetEntry_resetEntry e)

/-- Processing only rewrites the running-total and projection fields. -/
theorem processEntries_map_resetEntry (l : List ProcessedEntry) :
    (processEntries l).map resetEntry = l.map resetEntry := by
  have h1 : (processEntries l).map eraseProj =
      (cumSums (.num 0) (.num 0) (l.map resetEntry)).map eraseProj :=
    projectEntries_map_eraseProj _
  have h2 : (processEntries l).map resetEntry =
      (cumSums (.num 0) (.num 0) (l.map resetEntry)).map resetEntry := by
    have := congrArg (List.map resetEntry) h1
    rw [List.map_map, List.map_map] at this
    simpa [Function.comp, resetEntry, eraseProj] using this
  rw [h2, cumSums_map_resetEntry, map_resetEntry_map_resetEntry]

/-! Field extractors: two entries with the same image under resetEntry
(resp. eraseProj) agree on every field that the map preserves. -/

theorem reset_eq_index {a b : ProcessedEntry} (h : resetEntry a = resetEntry b) :
    a.index = b.index := congrArg (fun e => e.index) h

theorem reset_eq_donated {a b : ProcessedEntry} (h : resetEntry a = resetEntry b) :
    a.donated = b.donated := congrArg (fun e => e.donated) h

theorem reset_eq_needed {a b : ProcessedEntry} (h : resetEntry a = resetEntry b) :
    a.needed = b.needed := congrArg (fun e => e.needed) h

theorem reset_eq_hasDonation {a b : ProcessedEntry} (h : resetEntry a = resetEntry b) :
    a.hasDonation = b.hasDonation := congrArg (fun e => e.hasDonation) h

theorem erase_eq_sumDonated {a b : ProcessedEntry} (h : eraseProj a = eraseProj b) :
    a.sumDonated = b.sumDonated := congrArg (fun e => e.sumDonated) h

theorem erase_eq_sumNeeded {a b : ProcessedEntry} (h : eraseProj a = eraseProj b) :
    a.sumNeeded = b.sumNeeded := congrArg (fun e => e.sumNeeded) h

theorem erase_eq_donated {a b : ProcessedEntry} (h : eraseProj a = eraseProj b) :
    a.donated = b.donated := congrArg (fun e => e.donated) h

theorem erase_eq_needed {a b : ProcessedEntry} (h : eraseProj a = eraseProj b) :
    a.needed = b.needed := congrArg (fun e => e.needed) h

/-- Elementwise form of projectEntries_map_eraseProj at the processEntries
unfolding. -/
theorem processEntries_erase_getElem (l : List ProcessedEntry) (i : ℕ)
    (hi : i < (processEntries l).length)
    (hi2 : i < (cumSums (.num 0) (.num 0) (l.map resetEntry)).length) :
    eraseProj ((processEntries l)[i]) =
      eraseProj ((cumSums (.num 0) (.num 0) (l.map resetEntry))[i]) :=
  map_getElem_eq eraseProj
    (projectEntries_map_eraseProj (cumSums (.num 0) (.num 0) (l.map resetEntry))) i hi hi2

/-- Elementwise form of processEntries_map_resetEntry. -/
theorem processEntries_reset_getElem (l : List ProcessedEntry) (i : ℕ)
    (hi : i < (processEntries l).length) (hi2 : i < l.length) :
    resetEntry ((processEntries l)[i]) = resetEntry (l[i]) :=
  map_getElem_eq resetEntry (processEntries_map_resetEntry l) i hi hi2

/-- The running totals of the output satisfy the left-fold recurrence: the
first entry's totals are its own values, and each later entry's totals add
its own values to the previous entry's totals. -/
theorem processEntries_sums (l : List ProcessedEntry) :
    (∀ (h : 0 < (processEntries l).length),
        (processEntries l)[0].sumDonated = (processEntries l)[0].donated ∧
        (processEntries l)[0].sumNeeded = (processEntries l)[0].needed) ∧
    ∀ (i : ℕ) (h : i + 1 < (processEntries l).length),
        (processEntries l)[i + 1].sumDonated =
          (processEntries l)[i].sumDonated + (processEntries l)[i + 1].donated ∧
        (processEntries l)[i + 1].sumNeeded =
          (processEntries l)[i].sumNeeded + (processEntries l)[i + 1].needed := by
  have hlen : (processEntries l).length =
      (cumSums (.num 0) (.num 0) (l.map resetEntry)).length := by
    rw [processEntries_length, cumSums_length, List.length_map]
  constructor
  · intro h
    have h2 : 0 < (cumSums (.num 0) (.num 0) (l.map resetEntry)).length := by omega
    have hsd := erase_eq_sumDonated (processEntries_erase_getElem l 0 h h2)
    have hsn := erase_eq_sumNeeded (processEntries_erase_getElem l 0 h h2)
    have hd := erase_eq_donated (processEntries_erase_getElem l 0 h h2)
    have hn := erase_eq_needed (processEntries_erase_getElem l 0 h h2)
    constructor
    · rw [hsd, cumSums_zero_sumDonated _ _ _ h2, JSNum.zero_add, ← hd]
    · rw [hsn, cumSums_zero_sumNeeded _ _ _ h2, JSNum.zero_add, ← hn]
  · intro i h
    have h2 : i + 1 < (cumSums (.num 0) (.num 0) (l.map resetEntry)).length := by omega
    have h1 : i < (processEntries l).length := by omega
    have h12 : i < (cumSums (.num 0) (.num 0) (l.map resetEntry)).length := by omega
    have hsd := erase_eq_sumDonated (processEntries_erase_getElem l (i + 1) h h2)
    have hsn := erase_eq_sumNeeded (processEntries_erase_getElem l (i + 1) h h2)
    have hd := erase_eq_donated (processEntries_erase_getElem l (i + 1) h h2)
    have hn := erase_eq_needed (processEntries_erase_getElem l (i + 1) h h2)
    have hsd' := erase_eq_sumDonated (processEntries_erase_getElem l i h1 h12)
    have hsn' := erase_eq_sumNeeded (processEntries_erase_getElem l i h1 h12)
    constructor
    · rw [hsd, cumSums_succ_sumDonated _ _ _ _ h2, ← hd, ← hsd']
    · rw [hsn, cumSums_succ_sumNeeded _ _ _ _ h2, ← hn, ← hsn']

theorem erase_eq_index {a b : ProcessedEntry} (h : eraseProj a = eraseProj b) :
    a.index = b.index := congrArg (fun e => e.index) h

theorem erase_eq_hasDonation {a b : ProcessedEntry} (h : eraseProj a = eraseProj b) :
    a.hasDonation = b.hasDonation := congrArg (fun e => e.hasDonation) h

/-- The aggregated sequence built inside processEntries, before projection. -/
theorem result_map_resetEntry (l : List ProcessedEntry) :
    (cumSums (.num 0) (.num 0) (l.map resetEntry)).map resetEntry = l.map resetEntry := by
  rw [cumSums_map_resetEntry, map_resetEntry_map_resetEntry]

theorem result_length (l : List ProcessedEntry) :
    (cumSums (.num 0) (.num 0) (l.map resetEntry)).length = l.length := by
  rw [cumSums_length, List.length_map]

theorem result_reset_getElem (l : List ProcessedEntry) (i : ℕ)
    (hi : i < (cumSums (.num 0) (.num 0) (l.map resetEntry)).length) (hi2 : i < l.length) :
    resetEntry ((cumSums (.num 0) (.num 0) (l.map resetEntry))[i]) = resetEntry (l[i]) :=
  map_getElem_eq resetEntry (result_map_resetEntry l) i hi hi2

/-- No entry of the aggregated sequence carries a projection yet. -/
theorem result_proj_none (l : List ProcessedEntry) (i : ℕ)
    (hi : i < (cumSums (.num 0) (.num 0) (l.map resetEntry)).length) :
    (cumSums (.num 0) (.num 0) (l.map resetEntry))[i].sumProjectedDonations = none := by
  have him : i < (l.map resetEntry).length := by
    rw [← cumSums_length (.num 0) (.num 0)]
    exact hi
  rw [cumSums_proj _ _ _ _ him hi, List.getElem_map]
  rfl

/-- The index field of the processed output agrees with the input at every
position. -/
theorem processEntries_index_getElem (l : List ProcessedEntry) (i : ℕ)
    (hi : i < (processEntries l).length) (hi2 : i < l.length) :
    (processEntries l)[i].index = l[i].index :=
  reset_eq_index (processEntries_reset_getElem l i hi hi2)

/-- The window has length min 3 (number of donation-bearing entries). -/
theorem donationWindow_length (result : List ProcessedEntry) :
    (donationWindow result).length =
      min 3 (result.filter (fun e => e.hasDonation)).length := by
  simp only [donationWindow, List.length_drop]
  omega

theorem donationWindow_suffix (result : List ProcessedEntry) :
    donationWindow result <:+ result.filter (fun e => e.hasDonation) :=
  List.drop_suffix _ _

/-- With at least one donation-bearing input entry, the window that
processEntries computes is nonempty. -/
theorem donationWindow_ne_nil (l : List ProcessedEntry)
    (hdon : ∃ e ∈ l, e.hasDonation = true) :
    ∃ w0 ws, donationWindow (cumSums (.num 0) (.num 0) (l.map resetEntry)) = w0 :: ws := by
  obtain ⟨e, he, hd⟩ := hdon
  obtain ⟨i, hi, hie⟩ := List.mem_iff_getElem.mp he
  have hri : i < (cumSums (.num 0) (.num 0) (l.map resetEntry)).length := by
    rw [result_length]
    exact hi
  have hhd : (cumSums (.num 0) (.num 0) (l.map resetEntry))[i].hasDonation = true := by
    rw [reset_eq_hasDonation (result_reset_getElem l i hri hi), hie]
    exact hd
  have hmem : (cumSums (.num 0) (.num 0) (l.map resetEntry))[i] ∈
      (cumSums (.num 0) (.num 0) (l.map resetEntry)).filter (fun e => e.hasDonation) :=
    List.mem_filter.mpr ⟨List.getElem_mem hri, hhd⟩
  have hne : ((cumSums (.num 0) (.num 0) (l.map resetEntry)).filter
      (fun e => e.hasDonation)).length ≠ 0 :=
    fun h0 => by simp [List.length_eq_zero.mp h0] at hmem
  have hwlen : (donationWindow (cumSums (.num 0) (.num 0) (l.map resetEntry))).length ≠ 0 := by
    rw [donationWindow_length]
    omega
  exact List.exists_cons_of_ne_nil (fun hnil => hwlen (by rw [hnil]; rfl))

/-! Lemmas about the chronological sort. -/

theorem sortEntries_perm (l : List ProcessedEntry) : (sortEntries l).Perm l :=
  List.perm_insertionSort _ l

theorem sortEntries_sorted (l : List ProcessedEntry) :
    List.Pairwise (fun a b : ProcessedEntry => a.index ≤ b.index) (sortEntries l) :=
  List.sorted_insertionSort _ l

/-! NaN propagation through the cumulative sums. -/

theorem cumSums_nan_sumDonated (sd sn : JSNum) (l : List ProcessedEntry) (i : ℕ)
    (hi : i < l.length) (hd : l[i].donated = JSNum.nan) :
    ∀ (j : ℕ), i ≤ j → ∀ (hj : j < (cumSums sd sn l).length),
      (cumSums sd sn l)[j].sumDonated = JSNum.nan := by
  have hdon : ∀ (k : ℕ) (hk : k < (cumSums sd sn l).length) (hk2 : k < l.length),
      (cumSums sd sn l)[k].donated = l[k].donated :=
    fun k hk hk2 => reset_eq_donated (map_getElem_eq resetEntry (cumSums_map_resetEntry sd sn l) k hk hk2)
  intro j
  induction j with
  | zero =>
      intro hij hj
      have hi0 : i = 0 := Nat.le_zero.mp hij
      subst hi0
      rw [cumSums_zero_sumDonated _ _ _ hj, hdon 0 hj (by omega), hd]
      exact JSNum.add_nan sd
  | succ k ih =>
      intro hij hj
      rcases Nat.lt_or_ge i (k + 1) with hik | hik
      · have hk : k < (cumSums sd sn l).length := by omega
        rw [cumSums_succ_sumDonated _ _ _ _ hj, ih (by omega) hk]
        rfl
      · have hik2 : i = k + 1 := by omega
        subst hik2
        rw [cumSums_succ_sumDonated _ _ _ _ hj, hdon (k + 1) hj (by omega), hd]
        exact JSNum.add_nan _

theorem cumSums_nan_sumNeeded (sd sn : JSNum) (l : List ProcessedEntry) (i : ℕ)
    (hi : i < l.length) (hd : l[i].needed = JSNum.nan) :
    ∀ (j : ℕ), i ≤ j → ∀ (hj : j < (cumSums sd sn l).length),
      (cumSums sd sn l)[j].sumNeeded = JSNum.nan := by
  have hdon : ∀ (k : ℕ) (hk : k < (cumSums sd sn l).length) (hk2 : k < l.length),
      (cumSums sd sn l)[k].needed = l[k].needed :=
    fun k hk hk2 => reset_eq_needed (map_getElem_eq resetEntry (cumSums_map_resetEntry sd sn l) k hk hk2)
  intro j
  induction j with
  | zero =>
      intro hij hj
      have hi0 : i = 0 := Nat.le_zero.mp hij
      subst hi0
      rw [cumSums_zero_sumNeeded _ _ _ hj, hdon 0 hj (by omega), hd]
      exact JSNum.add_nan sn
  | succ k ih =>
      intro hij hj
      rcases Nat.lt_or_ge i (k + 1) with hik | hik
      · have hk : k < (cumSums sd sn l).length := by omega
        rw [cumSums_succ_sumNeeded _ _ _ _ hj, ih (by omega) hk]
        rfl
      · have hik2 : i = k + 1 := by omega
        subst hik2
        rw [cumSums_succ_sumNeeded _ _ _ _ hj, hdon (k + 1) hj (by omega), hd]
        exact JSNum.add_nan _

/-! Lemmas about the row parser. -/

/-- Explicit form of parseRow on a row whose month parses. -/
theorem parseRow_eq (row : RawRow) (y m : ℤ) (hm : parseMonth row.month = some (y, m)) :
    parseRow row = some
      { index := (y - 2000) * 12 + m
        year := y
        donated := jsParseFloat row.pledged + jsParseFloat row.received
        needed := jsParseFloat row.needed
        pledged := jsParseFloat row.pledged
        received := jsParseFloat row.received
        hasDonation :=
          (jsParseFloat row.received).gt (.num 0) || (jsParseFloat row.pledged).gt (.num 0)
        sumDonated := .num 0
        sumNeeded := .num 0
        sumProjectedDonations := none } := by
  unfold parseRow
  rw [hm]

/-- A row parses exactly when its month does: rows with unparseable numeric
fields are never skipped. -/
theorem parseRow_isSome (row : RawRow) :
    (parseRow row).isSome = (parseMonth row.month).isSome := by
  unfold parseRow
  cases hm : parseMonth row.month with
  | none => rfl
  | some ym => rfl

theorem filterMap_length_of_isSome {α β : Type} (f : α → Option β) :
    ∀ (l : List α), (∀ a ∈ l, (f a).isSome) → (l.filterMap f).length = l.length := by
  intro l
  induction l with
  | nil => intro _; rfl
  | cons a rest ih =>
      intro hall
      have ha : (f a).isSome := hall a (by simp)
      cases hfa : f a with
      | none => rw [hfa] at ha; simp at ha
      | some b =>
          rw [List.filterMap_cons, hfa, List.length_cons, ih (fun x hx => hall x (by simp [hx])),
            List.length_cons]

/-- When every month parses, loadData keeps every row. -/
theorem loadData_length (rows : List RawRow)
    (hall : ∀ r ∈ rows, (parseMonth r.month).isSome) :
    (loadData rows).length = rows.length := by
  unfold loadData sortEntries
  rw [(List.perm_insertionSort _ _).length_eq]
  exact filterMap_length_of_isSome parseRow rows
    (fun r hr => by rw [parseRow_isSome]; exact hall r hr)

/-! The claims. -/

/-- C1: for every entry sequence given to processEntries, the output's
running totals satisfy the recurrence sumDonated[0] = donated[0] and
sumDonated[i] = sumDonated[i-1] + donated[i] for every i > 0, and likewise
for sumNeeded. -/
theorem C1_running_totals (l : List ProcessedEntry) :
    (∀ (h : 0 < (processEntries l).length),
        (processEntries l)[0].sumDonated = (processEntries l)[0].donated ∧
        (processEntries l)[0].sumNeeded = (processEntries l)[0].needed) ∧
    ∀ (i : ℕ) (h : i + 1 < (processEntries l).length),
        (processEntries l)[i + 1].sumDonated =
          (processEntries l)[i].sumDonated + (processEntries l)[i + 1].donated ∧
        (processEntries l)[i + 1].sumNeeded =
          (processEntries l)[i].sumNeeded + (processEntries l)[i + 1].needed :=
  processEntries_sums l

theorem C1_witness :
    ((processEntries [entryJan, entryFeb]).get ⟨0, by decide⟩).sumDonated =
      ((processEntries [entryJan, entryFeb]).get ⟨0, by decide⟩).donated ∧
    ((processEntries [entryJan, entryFeb]).get ⟨1, by decide⟩).sumDonated =
      ((processEntries [entryJan, entryFeb]).get ⟨0, by decide⟩).sumDonated +
        ((processEntries [entryJan, entryFeb]).get ⟨1, by decide⟩).donated := by
  constructor
  · have h := (C1_running_totals [entryJan, entryFeb]).1 (by decide)
    simpa [List.get_eq_getElem] using h.1
  · have h := (C1_running_totals [entryJan, entryFeb]).2 0 (by decide)
    simpa [List.get_eq_getElem] using h.1

/-- C9: processing is pure in this embedding (same input gives the same
term, and the input list is never mutated), and applying processEntries to
its own output returns that output unchanged. -/
theorem C9_idempotent (l : List ProcessedEntry) :
    processEntries (processEntries l) = processEntries l := by
  show projectEntries (cumSums (.num 0) (.num 0) ((processEntries l).map resetEntry)) =
    processEntries l
  rw [processEntries_map_resetEntry]
  rfl

/-- C4: with zero donation-bearing entries, processing completes (it is a
total function whose empty-window case is the guarded first branch of
projectEntries), keeps every entry, and defines no projection anywhere. -/
theorem C4_no_donations_guarded (l : List ProcessedEntry)
    (hnone : ∀ e ∈ l, e.hasDonation = false) :
    (processEntries l).length = l.length ∧
    ∀ e ∈ processEntries l, e.sumProjectedDonations = none := by
  have hfil : (cumSums (.num 0) (.num 0) (l.map resetEntry)).filter
      (fun e => e.hasDonation) = [] := by
    rw [List.filter_eq_nil_iff]
    intro a ha
    obtain ⟨i, hi, hia⟩ := List.mem_iff_getElem.mp ha
    have hi2 : i < l.length := by rw [← result_length l]; exact hi
    have hh := reset_eq_hasDonation (result_reset_getElem l i hi hi2)
    rw [← hia, hh, hnone _ (List.getElem_mem hi2)]
    simp
  have hw : donationWindow (cumSums (.num 0) (.num 0) (l.map resetEntry)) = [] := by
    unfold donationWindow
    rw [hfil]
    rfl
  have hpe : processEntries l = cumSums (.num 0) (.num 0) (l.map resetEntry) :=
    projectEntries_nilWindow _ hw
  constructor
  · rw [processEntries_length]
  · intro e he
    rw [hpe] at he
    obtain ⟨i, hi, hie⟩ := List.mem_iff_getElem.mp he
    rw [← hie]
    exact result_proj_none l i hi

theorem C4_witness :
    parseRow rowZero = some entryZero ∧
    (processEntries [entryZero]).length = 1 ∧
    ∀ e ∈ processEntries [entryZero], e.sumProjectedDonations = none := by
  refine ⟨by decide, ?len, ?proj⟩
  · exact (C4_no_donations_guarded [entryZero] (by decide)).1
  · exact (C4_no_donations_guarded [entryZero] (by decide)).2

/-- C7: every parsed entry satisfies donated = received + pledged. -/
theorem C7_donated_sum (row : RawRow) (e : ProcessedEntry)
    (h : parseRow row = some e) : e.donated = e.received + e.pledged := by
  cases hm : parseMonth row.month with
  | none =>
      unfold parseRow at h
      rw [hm] at h
      cases h
  | some ym =>
      have h2 := parseRow_eq row ym.1 ym.2 (by rw [hm])
      rw [h2] at h
      have he := Option.some.inj h
      rw [← he]
      exact JSNum.add_comm (jsParseFloat row.pledged) (jsParseFloat row.received)

theorem C7_witness :
    parseRow rowJan = some entryJan ∧
    entryJan.donated = entryJan.received + entryJan.pledged :=
  ⟨by decide, C7_donated_sum rowJan entryJan (by decide)⟩

/-- C8: hasDonation of a parsed entry is exactly received > 0 or
pledged > 0, and it depends only on the raw received and pledged fields —
two rows agreeing on those two fields get the same flag regardless of
month, donors and needed. -/
theorem C8_hasDonation_policy (row : RawRow) (e : ProcessedEntry)
    (h : parseRow row = some e) :
    e.hasDonation = (e.received.gt (.num 0) || e.pledged.gt (.num 0)) ∧
    ∀ (row2 : RawRow) (e2 : ProcessedEntry), parseRow row2 = some e2 →
      row2.received = row.received → row2.pledged = row.pledged →
      e2.hasDonation = e.hasDonation := by
  cases hm : parseMonth row.month with
  | none =>
      unfold parseRow at h
      rw [hm] at h
      cases h
  | some ym =>
      have h2 := parseRow_eq row ym.1 ym.2 (by rw [hm])
      rw [h2] at h
      have he := Option.some.inj h
      constructor
      · rw [← he]
      · intro row2 e2 h' hrec hple
        cases hm2 : parseMonth row2.month with
        | none =>
            unfold parseRow at h'
            rw [hm2] at h'
            cases h'
        | some ym2 =>
            have h22 := parseRow_eq row2 ym2.1 ym2.2 (by rw [hm2])
            rw [h22] at h'
            have he2 := Option.some.inj h'
            rw [← he, ← he2]
            show ((jsParseFloat row2.received).gt (.num 0) ||
                (jsParseFloat row2.pledged).gt (.num 0)) =
              ((jsParseFloat row.received).gt (.num 0) ||
                (jsParseFloat row.pledged).gt (.num 0))
            rw [hrec, hple]

theorem C8_witness :
    parseRow rowJan = some entryJan ∧
    entryJan.hasDonation = (entryJan.received.gt (.num 0) || entryJan.pledged.gt (.num 0)) ∧
    entryAlt.hasDonation = entryJan.hasDonation := by
  have h := C8_hasDonation_policy rowJan entryJan (by decide)
  exact ⟨by decide, h.1, h.2 rowAlt entryAlt (by decide) (by decide) (by decide)⟩

/-- C6 as stated is false on the code: a well-formed row with a missing
pledged field yields pledged = parseFloat(undefined) = NaN, so donated is
NaN rather than received (here received is 600). -/
theorem C6_counterexample :
    parseRow rowNoPledged = some entryNoPledged ∧
    entryNoPledged.received = JSNum.num 600 ∧
    entryNoPledged.donated = JSNum.nan ∧
    entryNoPledged.donated ≠ entryNoPledged.received :=
  ⟨by decide, by decide, by decide, by decide⟩

/-- C6 amended: for every well-formed row in which the pledged field is
missing, the parser produces pledged = NaN, and hence donated = NaN — not
donated = received. -/
theorem C6_amended_missing_pledged (row : RawRow) (e : ProcessedEntry)
    (hp : row.pledged = none) (h : parseRow row = some e) :
    e.pledged = JSNum.nan ∧ e.donated = JSNum.nan := by
  cases hm : parseMonth row.month with
  | none =>
      unfold parseRow at h
      rw [hm] at h
      cases h
  | some ym =>
      have h2 := parseRow_eq row ym.1 ym.2 (by rw [hm])
      rw [h2] at h
      have he := Option.some.inj h
      rw [← he]
      constructor
      · show jsParseFloat row.pledged = JSNum.nan
        rw [hp]
        rfl
      · show jsParseFloat row.pledged + jsParseFloat row.received = JSNum.nan
        rw [hp]
        exact JSNum.nan_add _

theorem C6_amended_witness :
    rowNoPledged.pledged = none ∧
    parseRow rowNoPledged = some entryNoPledged ∧
    entryNoPledged.pledged = JSNum.nan ∧ entryNoPledged.donated = JSNum.nan := by
  have h := C6_amended_missing_pledged rowNoPledged entryNoPledged rfl (by decide)
  exact ⟨rfl, by decide, h.1, h.2⟩

/-- C10: a row whose received, pledged or needed field does not parse as a
number is neither rejected nor skipped — loadData keeps every row whose
month parses — and the offending field (hence donated) is NaN; the
cumulative pass then makes sumDonated (resp. sumNeeded) NaN for that entry
and every later one, with no error signalled anywhere (all the embedded
functions are total). -/
theorem C10_nan_propagation :
    (∀ (rows : List RawRow), (∀ r ∈ rows, (parseMonth r.month).isSome) →
        (loadData rows).length = rows.length) ∧
    (∀ (row : RawRow) (e : ProcessedEntry), parseRow row = some e →
        (jsParseFloat row.received = JSNum.nan → e.donated = JSNum.nan) ∧
        (jsParseFloat row.pledged = JSNum.nan → e.donated = JSNum.nan) ∧
        (jsParseFloat row.needed = JSNum.nan → e.needed = JSNum.nan)) ∧
    ∀ (l : List ProcessedEntry) (i j : ℕ) (hi : i < l.length), i ≤ j →
      ∀ (hj : j < (processEntries l).length),
        (l[i].donated = JSNum.nan → (processEntries l)[j].sumDonated = JSNum.nan) ∧
        (l[i].needed = JSNum.nan → (processEntries l)[j].sumNeeded = JSNum.nan) := by
  refine ⟨loadData_length, ?parse, ?prop⟩
  · intro row e h
    cases hm : parseMonth row.month with
    | none =>
        unfold parseRow at h
        rw [hm] at h
        cases h
    | some ym =>
        have h2 := parseRow_eq row ym.1 ym.2 (by rw [hm])
        rw [h2] at h
        have he := Option.some.inj h
        rw [← he]
        refine ⟨?recv, ?pled, ?need⟩
        · intro hr
          show jsParseFloat row.pledged + jsParseFloat row.received = JSNum.nan
          rw [hr]
          exact JSNum.add_nan _
        · intro hp
          show jsParseFloat row.pledged + jsParseFloat row.received = JSNum.nan
          rw [hp]
          exact JSNum.nan_add _
        · intro hn
          exact hn
  · intro l i j hi hij hj
    have hj2 : j < (cumSums (.num 0) (.num 0) (l.map resetEntry)).length := by
      rw [result_length]
      rw [processEntries_length] at hj
      exact hj
    have hmap : i < (l.map resetEntry).length := by simpa using hi
    constructor
    · intro hd
      have hd2 : (l.map resetEntry)[i].donated = JSNum.nan := by
        rw [List.getElem_map]
        exact hd
      rw [erase_eq_sumDonated (processEntries_erase_getElem l j hj hj2)]
      exact cumSums_nan_sumDonated (.num 0) (.num 0) (l.map resetEntry) i hmap hd2 j hij hj2
    · intro hn
      have hn2 : (l.map resetEntry)[i].needed = JSNum.nan := by
        rw [List.getElem_map]
        exact hn
      rw [erase_eq_sumNeeded (processEntries_erase_getElem l j hj hj2)]
      exact cumSums_nan_sumNeeded (.num 0) (.num 0) (l.map resetEntry) i hmap hn2 j hij hj2

theorem C10_witness :
    (loadData [rowBadReceived]).length = 1 ∧
    parseRow rowBadReceived = some entryBad ∧
    entryBad.donated = JSNum.nan ∧
    ((processEntries [entryBad, entryFeb]).get ⟨1, by decide⟩).sumDonated = JSNum.nan := by
  have h := C10_nan_propagation
  refine ⟨h.1 [rowBadReceived] (by decide), by decide,
    (h.2.1 rowBadReceived entryBad (by decide)).1 (by decide), ?prop⟩
  have h4 := (h.2.2 [entryBad, entryFeb] 0 1 (by decide) (by decide) (by decide)).1 (by decide)
  simpa [List.get_eq_getElem] using h4

/-- C2: on a sorted, aggregated sequence with at least one donation-bearing
entry, the window is the trailing min 3 count donation-bearing entries in
chronological order (a suffix of the donation-bearing subsequence), and
every entry with period at least the window's first period receives
sumProjectedDonations = avgSumDonated + avgDonated * (period - avgIndex),
the anchor being the window means (projectedValue). -/
theorem C2_projection_window_formula (l : List ProcessedEntry)
    (hsorted : List.Pairwise (fun a b : ProcessedEntry => a.index ≤ b.index) l)
    (hdon : ∃ e ∈ l, e.hasDonation = true) :
    ∃ w0 ws,
      donationWindow (cumSums (.num 0) (.num 0) (l.map resetEntry)) = w0 :: ws ∧
      (w0 :: ws).length =
        min 3 ((cumSums (.num 0) (.num 0) (l.map resetEntry)).filter
          (fun e => e.hasDonation)).length ∧
      ((w0 :: ws) <:+ (cumSums (.num 0) (.num 0) (l.map resetEntry)).filter
        (fun e => e.hasDonation)) ∧
      ∀ (i : ℕ) (hi : i < (processEntries l).length),
        w0.index ≤ (processEntries l)[i].index →
        (processEntries l)[i].sumProjectedDonations =
          some (projectedValue (w0 :: ws) ((processEntries l)[i].index)) := by
  obtain ⟨w0, ws, hw⟩ := donationWindow_ne_nil l hdon
  refine ⟨w0, ws, hw, ?len, ?suffix, ?formula⟩
  · rw [← hw, donationWindow_length]
  · rw [← hw]
    exact donationWindow_suffix _
  · intro i hi hle
    have hi2 : i < (cumSums (.num 0) (.num 0) (l.map resetEntry)).length := by
      rw [result_length]
      rw [processEntries_length] at hi
      exact hi
    have hidx : (processEntries l)[i].index =
        (cumSums (.num 0) (.num 0) (l.map resetEntry))[i].index :=
      erase_eq_index (processEntries_erase_getElem l i hi hi2)
    rw [hidx] at hle
    have hproj : (processEntries l)[i] =
        { (cumSums (.num 0) (.num 0) (l.map resetEntry))[i] with
            sumProjectedDonations := some (projectedValue (w0 :: ws)
              (((cumSums (.num 0) (.num 0) (l.map resetEntry))[i]).index)) } := by
      have hget := projectEntries_getElem (cumSums (.num 0) (.num 0) (l.map resetEntry))
        w0 ws hw i hi2 hi
      rw [if_pos hle] at hget
      exact hget
    rw [hproj]

/-- C3: with a sorted input having at least one donation-bearing entry,
sumProjectedDonations is present on exactly the entries whose period is at
least projectionStart (the period of the window's first entry), absent
before it, and once present it stays present to the end of the sequence. -/
theorem C3_projection_coverage (l : List ProcessedEntry)
    (hsorted : List.Pairwise (fun a b : ProcessedEntry => a.index ≤ b.index) l)
    (hdon : ∃ e ∈ l, e.hasDonation = true) :
    ∃ s : ℤ, projectionStart l = some s ∧
      (∀ (i : ℕ) (hi : i < (processEntries l).length),
        ((processEntries l)[i].sumProjectedDonations ≠ none ↔
          s ≤ (processEntries l)[i].index)) ∧
      ∀ (i j : ℕ) (hi : i < (processEntries l).length)
        (hj : j < (processEntries l).length), i ≤ j →
        (processEntries l)[i].sumProjectedDonations ≠ none →
        (processEntries l)[j].sumProjectedDonations ≠ none := by
  obtain ⟨w0, ws, hw⟩ := donationWindow_ne_nil l hdon
  have key : ∀ (i : ℕ) (hi : i < (processEntries l).length),
      ((processEntries l)[i].sumProjectedDonations ≠ none ↔
        w0.index ≤ (processEntries l)[i].index) := by
    intro i hi
    have hi2 : i < (cumSums (.num 0) (.num 0) (l.map resetEntry)).length := by
      rw [result_length]
      rw [processEntries_length] at hi
      exact hi
    have hidx : (processEntries l)[i].index =
        (cumSums (.num 0) (.num 0) (l.map resetEntry))[i].index :=
      erase_eq_index (processEntries_erase_getElem l i hi hi2)
    have hget : (processEntries l)[i] =
        (if w0.index ≤ ((cumSums (.num 0) (.num 0) (l.map resetEntry))[i]).index then
          { (cumSums (.num 0) (.num 0) (l.map resetEntry))[i] with
              sumProjectedDonations := some (projectedValue (w0 :: ws)
                (((cumSums (.num 0) (.num 0) (l.map resetEntry))[i]).index)) }
        else (cumSums (.num 0) (.num 0) (l.map resetEntry))[i]) :=
      projectEntries_getElem (cumSums (.num 0) (.num 0) (l.map resetEntry)) w0 ws hw i hi2 hi
    by_cases hle : w0.index ≤ ((cumSums (.num 0) (.num 0) (l.map resetEntry))[i]).index
    · rw [if_pos hle] at hget
      rw [hget]
      simpa using hle
    · rw [if_neg hle] at hget
      rw [hget, result_proj_none l i hi2]
      simpa using hle
  refine ⟨w0.index, ?start, key, ?mono⟩
  · unfold projectionStart
    rw [hw]
    rfl
  · intro i j hi hj hij hne
    rcases Nat.eq_or_lt_of_le hij with heq | hlt
    · exact heq ▸ hne
    · have hi2 : i < l.length := by rw [← processEntries_length l]; exact hi
      have hj2 : j < l.length := by rw [← processEntries_length l]; exact hj
      have hxi := processEntries_index_getElem l i hi hi2
      have hxj := processEntries_index_getElem l j hj hj2
      have hmono : l[i].index ≤ l[j].index :=
        List.pairwise_iff_getElem.mp hsorted i j hi2 hj2 hlt
      have hs : w0.index ≤ (processEntries l)[i].index := (key i hi).mp hne
      refine (key j hj).mpr ?goal
      rw [hxj]
      rw [hxi] at hs
      omega

/-- C5: the aggregation of the pipeline (the chronological sort of loadData
followed by processEntries) maps any entry sequence, in any order, to a
sequence of the same length that is sorted ascending by period — strictly
when periods are unique — with the running totals populated by the
left-fold recurrence. -/
theorem C5_aggregator_sorts (l : List ProcessedEntry) :
    (processEntries (sortEntries l)).length = l.length ∧
    List.Pairwise (fun a b : ProcessedEntry => a.index ≤ b.index)
      (processEntries (sortEntries l)) ∧
    (((l.map (fun e => e.index)).Nodup) →
      List.Pairwise (fun a b : ProcessedEntry => a.index < b.index)
        (processEntries (sortEntries l))) ∧
    (∀ (h : 0 < (processEntries (sortEntries l)).length),
        (processEntries (sortEntries l))[0].sumDonated =
          (processEntries (sortEntries l))[0].donated ∧
        (processEntries (sortEntries l))[0].sumNeeded =
          (processEntries (sortEntries l))[0].needed) ∧
    ∀ (i : ℕ) (h : i + 1 < (processEntries (sortEntries l)).length),
        (processEntries (sortEntries l))[i + 1].sumDonated =
          (processEntries (sortEntries l))[i].sumDonated +
            (processEntries (sortEntries l))[i + 1].donated ∧
        (processEntries (sortEntries l))[i + 1].sumNeeded =
          (processEntries (sortEntries l))[i].sumNeeded +
            (processEntries (sortEntries l))[i + 1].needed := by
  have hslen : (sortEntries l).length = l.length := (sortEntries_perm l).length_eq
  have hlen : (processEntries (sortEntries l)).length = l.length := by
    rw [processEntries_length, hslen]
  have hidx : ∀ (i : ℕ) (hi : i < (processEntries (sortEntries l)).length)
      (hi2 : i < (sortEntries l).length),
      (processEntries (sortEntries l))[i].index = (sortEntries l)[i].index :=
    fun i hi hi2 => processEntries_index_getElem (sortEntries l) i hi hi2
  refine ⟨hlen, ?sorted, ?strict, (processEntries_sums (sortEntries l)).1,
    (processEntries_sums (sortEntries l)).2⟩
  · rw [List.pairwise_iff_getElem]
    intro i j hi hj hij
    have hi2 : i < (sortEntries l).length := by omega
    have hj2 : j < (sortEntries l).length := by omega
    rw [hidx i hi hi2, hidx j hj hj2]
    exact List.pairwise_iff_getElem.mp (sortEntries_sorted l) i j hi2 hj2 hij
  · intro hnodup
    have hnodup2 : ((sortEntries l).map (fun e => e.index)).Nodup :=
      (((sortEntries_perm l).map (fun e => e.index)).nodup_iff).mpr hnodup
    have hne : List.Pairwise (fun a b : ProcessedEntry => a.index ≠ b.index) (sortEntries l) :=
      List.pairwise_map.mp hnodup2
    rw [List.pairwise_iff_getElem]
    intro i j hi hj hij
    have hi2 : i < (sortEntries l).length := by omega
    have hj2 : j < (sortEntries l).length := by omega
    rw [hidx i hi hi2, hidx j hj hj2]
    have hle := List.pairwise_iff_getElem.mp (sortEntries_sorted l) i j hi2 hj2 hij
    have hneq := List.pairwise_iff_getElem.mp hne i j hi2 hj2 hij
    omega

theorem C2_witness :
    List.Pairwise (fun a b : ProcessedEntry => a.index ≤ b.index)
      [entryJan, entryFeb, entryMar] ∧
    (∃ e ∈ [entryJan, entryFeb, entryMar], e.hasDonation = true) ∧
    ∃ w0 ws,
      donationWindow (cumSums (.num 0) (.num 0)
        ([entryJan, entryFeb, entryMar].map resetEntry)) = w0 :: ws ∧
      (w0 :: ws).length =
        min 3 ((cumSums (.num 0) (.num 0)
          ([entryJan, entryFeb, entryMar].map resetEntry)).filter
            (fun e => e.hasDonation)).length ∧
      ((w0 :: ws) <:+ (cumSums (.num 0) (.num 0)
        ([entryJan, entryFeb, entryMar].map resetEntry)).filter
          (fun e => e.hasDonation)) ∧
      ∀ (i : ℕ) (hi : i < (processEntries [entryJan, entryFeb, entryMar]).length),
        w0.index ≤ (processEntries [entryJan, entryFeb, entryMar])[i].index →
        (processEntries [entryJan, entryFeb, entryMar])[i].sumProjectedDonations =
          some (projectedValue (w0 :: ws)
            ((processEntries [entryJan, entryFeb, entryMar])[i].index)) :=
  ⟨by decide, by decide,
    C2_projection_window_formula [entryJan, entryFeb, entryMar] (by decide) (by decide)⟩

theorem C3_witness :
    List.Pairwise (fun a b : ProcessedEntry => a.index ≤ b.index)
      [entryJan, entryFeb, entryMar] ∧
    (∃ e ∈ [entryJan, entryFeb, entryMar], e.hasDonation = true) ∧
    ∃ s : ℤ, projectionStart [entryJan, entryFeb, entryMar] = some s ∧
      (∀ (i : ℕ) (hi : i < (processEntries [entryJan, entryFeb, entryMar]).length),
        ((processEntries [entryJan, entryFeb, entryMar])[i].sumProjectedDonations ≠ none ↔
          s ≤ (processEntries [entryJan, entryFeb, entryMar])[i].index)) ∧
      ∀ (i j : ℕ) (hi : i < (processEntries [entryJan, entryFeb, entryMar]).length)
        (hj : j < (processEntries [entryJan, entryFeb, entryMar]).length), i ≤ j →
        (processEntries [entryJan, entryFeb, entryMar])[i].sumProjectedDonations ≠ none →
        (processEntries [entryJan, entryFeb, entryMar])[j].sumProjectedDonations ≠ none :=
  ⟨by decide, by decide,
    C3_projection_coverage [entryJan, entryFeb, entryMar] (by decide) (by decide)⟩

theorem C5_witness :
    ([entryMar, entryJan, entryFeb].map (fun e => e.index)).Nodup ∧
    (processEntries (sortEntries [entryMar, entryJan, entryFeb])).length = 3 ∧
    List.Pairwise (fun a b : ProcessedEntry => a.index < b.index)
      (processEntries (sortEntries [entryMar, entryJan, entryFeb])) ∧
    ((processEntries (sortEntries [entryMar, entryJan, entryFeb])).get
        ⟨1, by decide⟩).sumDonated =
      ((processEntries (sortEntries [entryMar, entryJan, entryFeb])).get
          ⟨0, by decide⟩).sumDonated +
        ((processEntries (sortEntries [entryMar, entryJan, entryFeb])).get
            ⟨1, by decide⟩).donated := by
  have h := C5_aggregator_sorts [entryMar, entryJan, entryFeb]
  refine ⟨by decide, h.1, h.2.2.1 (by decide), ?rec⟩
  have h2 := (h.2.2.2.2 0 (by decide)).1
  simpa [List.get_eq_getElem] using h2

end Donations
